import Mathlib

/-!
Verification of the chunked HTML-to-Markdown translator (`main.py`).

The Python string primitives used by the program (`split`, `strip`, `replace`,
`join`, substring membership, `lower`) are embedded as executable functions on
the character list backing a `String`, with the same left-to-right,
non-overlapping occurrence semantics as CPython.  Filesystem writes performed
by `translate_markdown_chunks` are recorded as an explicit event trace.
Model loading and text generation are external effects; they enter the
embedding as parameters (`loadOk`, and the raw generation outcome `gen`,
where `none` stands for a raised exception caught by the `except` block).
-/

abbrev Chars := List Char

/-- Characters treated as whitespace by Python `str.strip` (ASCII range). -/
def isSpaceC (c : Char) : Bool :=
  c == ' ' || c == '\t' || c == '\n' || c == '\r' || c == '\x0B' || c == '\x0C'

/-- Python `str.strip` on the backing character list. -/
def stripL (s : Chars) : Chars :=
  ((s.dropWhile isSpaceC).reverse.dropWhile isSpaceC).reverse

/-- Python `s.strip()`. -/
def pyStrip (s : String) : String := String.mk (stripL s.data)

/-- Python `s.lower()`. -/
def pyLower (s : String) : String := String.mk (s.data.map Char.toLower)

/-- If `pat` is a prefix of `s`, return the remainder of `s`. -/
def dropPre : Chars → Chars → Option Chars
  | [], s => some s
  | _ :: _, [] => none
  | p :: ps, c :: cs => if p = c then dropPre ps cs else none

/-- Find the first occurrence of `sep` in `s`: `some (pre, post)` with
`s = pre ++ sep ++ post` and `pre` shortest possible. -/
def splitFirstL (sep : Chars) : Chars → Option (Chars × Chars)
  | [] =>
    match dropPre sep [] with
    | some rest => some ([], rest)
    | none => none
  | c :: cs =>
    match dropPre sep (c :: cs) with
    | some rest => some ([], rest)
    | none =>
      match splitFirstL sep cs with
      | some (pre, post) => some (c :: pre, post)
      | none => none

/-- Fuelled splitting on a separator, scanning left to right over
non-overlapping occurrences; `fuel` larger than the length of `s` is
always sufficient for a non-empty separator. -/
def splitOnFuelL (sep : Chars) : Nat → Chars → List Chars
  | 0, s => [s]
  | fuel + 1, s =>
    match splitFirstL sep s with
    | none => [s]
    | some (pre, post) => pre :: splitOnFuelL sep fuel post

/-- Python `s.split(sep)` for a non-empty separator. -/
def pySplit (s sep : String) : List String :=
  (splitOnFuelL sep.data (s.data.length + 1) s.data).map String.mk

/-- Python `sub in s`. -/
def pyContains (s sub : String) : Bool :=
  match splitFirstL sub.data s.data with
  | some _ => true
  | none => false

/-- Fuelled replace-all, scanning left to right over non-overlapping
occurrences (the semantics of Python `str.replace` for a non-empty pattern). -/
def replaceFuelL (pat rep : Chars) : Nat → Chars → Chars
  | 0, s => s
  | fuel + 1, s =>
    match splitFirstL pat s with
    | none => s
    | some (pre, post) => pre ++ rep ++ replaceFuelL pat rep fuel post

/-- Python `s.replace(pat, rep)` for a non-empty pattern. -/
def pyReplace (s pat rep : String) : String :=
  String.mk (replaceFuelL pat.data rep.data (s.data.length + 1) s.data)

/-- Join a list of character lists with a separator (Python `sep.join`). -/
def joinSepL (sep : Chars) : List Chars → Chars
  | [] => []
  | [x] => x
  | x :: xs => x ++ sep ++ joinSepL sep xs

/-- Python `sep.join(xs)`. -/
def pyJoin (sep : String) (xs : List String) : String :=
  String.mk (joinSepL sep.data (xs.map String.data))

/-- The concatenation of `"\n\n" ++ p` over a paragraph list; `x :: ps` joined
with the paragraph separator equals `x ++ tailJoin ps`. -/
def tailJoin : List String → String
  | [] => ""
  | p :: ps => ("\n\n" ++ p) ++ tailJoin ps

/-- Python `xs[0]` on a split result (split results are never empty). -/
def headPart (xs : List String) : String := xs.headD ""

/-- Python `xs[-1]` on a split result. -/
def lastPart (xs : List String) : String := xs.getLastD ""

/-- The loop of `main.py` lines 141-148: strip each line, keep it if non-blank,
and stop at the first blank line. -/
def takeCleanLines : List String → List String
  | [] => []
  | l :: ls =>
    if pyStrip l = "" then [] else pyStrip l :: takeCleanLines ls

/-- The plamo-2-translate prompt built at `main.py` lines 89-94. -/
def plamoPrompt (text : String) : String :=
  "<|plamo:op|>dataset\ntranslation\n<|plamo:op|>input lang=English\n"
    ++ text
    ++ "\n<|plamo:op|>output lang=Japanese writingStyle=polite\n"

/-- The generic-model prompt built at `main.py` line 97. -/
def genericPrompt (text : String) : String :=
  "Translate the following English text to Japanese:\n\n"
    ++ text
    ++ "\n\nJapanese translation:"

/-- The model-family dispatch used throughout `translate_with_mlx_lm`:
`"plamo" in model_name.lower() and "translate" in model_name.lower()`. -/
def isPlamoTranslate (model_name : String) : Bool :=
  pyContains (pyLower model_name) "plamo" && pyContains (pyLower model_name) "translate"

/-- Lines 121-125: remove the echoed prompt when it occurs verbatim, else just
strip the raw output. -/
def plamoExtract (text out : String) : String :=
  if pyContains out (plamoPrompt text) then
    pyStrip (pyReplace out (plamoPrompt text) "")
  else
    pyStrip out

/-- Lines 128-129: truncate at the first structural marker token. -/
def plamoCut (r : String) : String :=
  if pyContains r "<|plamo:op|>" then
    pyStrip (headPart (pySplit r "<|plamo:op|>"))
  else
    r

/-- Lines 138-149: generic-model extraction after the delimiter phrase was
found in the raw output (`len(parts) > 1` guard included). -/
def genericExtractLoop (out : String) : String :=
  if 1 < (pySplit out "Japanese translation:").length then
    pyJoin "\n"
      (takeCleanLines (pySplit (pyStrip (lastPart (pySplit out "Japanese translation:"))) "\n"))
  else
    pyStrip out

/-- `translate_with_mlx_lm` (`main.py` lines 59-155) with the generation step
abstracted: `gen = none` models an exception raised while loading or
generating (caught at line 153), `gen = some out` models `generate`
returning the raw text `out`. -/
def translate_with_mlx_lm (text model_name : String) (gen : Option String) : String :=
  match gen with
  | none => text
  | some out =>
    if isPlamoTranslate model_name then
      if plamoCut (plamoExtract text out) = "" then text
      else plamoCut (plamoExtract text out)
    else if pyContains out "Japanese translation:" then
      genericExtractLoop out
    else
      pyStrip out

/-- A filesystem write performed on the output file: an open in mode `'w'`
followed by writing the empty string (truncation), or an open in mode `'a'`
followed by appending `s`. -/
inductive FileEvent where
  | truncate : FileEvent
  | append : String → FileEvent
deriving DecidableEq

/-- Effect of one write on the current file content. -/
def applyEvent (content : String) : FileEvent → String
  | FileEvent.truncate => ""
  | FileEvent.append s => content ++ s

/-- File content after a trace of writes, starting from `init`. -/
def fileContent (init : String) (es : List FileEvent) : String :=
  es.foldl applyEvent init

/-- Mutable state of the chunking loop of `translate_markdown_chunks`:
`translated_paragraphs`, `current_chunk`, `chunk_count`, `paragraph_count`,
and the trace of file writes so far. -/
structure TState where
  translated : List String
  current : String
  chunkCount : Nat
  paragraphCount : Nat
  events : List FileEvent

/-- The append performed at lines 236-242 (and 272-278): the chunk text is
written plainly when starting from paragraph 1 and writing chunk 1, and with
a leading paragraph separator otherwise. -/
def writeEvent (start_line chunk_count : Nat) (t : String) : FileEvent :=
  if start_line = 1 ∧ chunk_count = 1 then FileEvent.append t
  else FileEvent.append ("\n\n" ++ t)

/-- One iteration of the `for paragraph in paragraphs` loop
(`main.py` lines 209-251). -/
def stepPar (tr : String → String) (chunk_size start_line : Nat)
    (st : TState) (p : String) : TState :=
  if st.paragraphCount + 1 < start_line then
    ⟨st.translated, st.current, st.chunkCount, st.paragraphCount + 1, st.events⟩
  else if st.current.length + p.length > chunk_size ∧ st.current ≠ "" then
    ⟨st.translated ++ [tr st.current], p, st.chunkCount + 1, st.paragraphCount + 1,
      st.events ++ [writeEvent start_line (st.chunkCount + 1) (tr st.current)]⟩
  else if st.current ≠ "" then
    ⟨st.translated, st.current ++ "\n\n" ++ p, st.chunkCount, st.paragraphCount + 1, st.events⟩
  else
    ⟨st.translated, p, st.chunkCount, st.paragraphCount + 1, st.events⟩

/-- The final-chunk block (`main.py` lines 254-279). -/
def finishPar (tr : String → String) (start_line : Nat) (st : TState) : TState :=
  if st.current ≠ "" then
    ⟨st.translated ++ [tr st.current], st.current, st.chunkCount + 1, st.paragraphCount,
      st.events ++ [writeEvent start_line (st.chunkCount + 1) (tr st.current)]⟩
  else st

/-- Loop state on entry: the output file is truncated (lines 199-202) exactly
when `start_line == 1`. -/
def initState (start_line : Nat) : TState :=
  ⟨[], "", 0, 0, if start_line = 1 then [FileEvent.truncate] else []⟩

/-- The whole paragraph loop: split on the paragraph separator, fold the loop
body over the paragraphs, translate the final chunk. -/
def runPipeline (tr : String → String) (markdown_content : String)
    (chunk_size start_line : Nat) : TState :=
  finishPar tr start_line
    ((pySplit markdown_content "\n\n").foldl (stepPar tr chunk_size start_line)
      (initState start_line))

/-- `translate_markdown_chunks` (`main.py` lines 158-281).  `loadOk = false`
models `load` raising (caught at line 185): the original Markdown is returned
and nothing is written.  `tr` is the per-chunk translation primitive; in the
program it is `translate_with_mlx_lm` applied with the loaded model.
Returns the function's return value together with the trace of file writes. -/
def translate_markdown_chunks (markdown_content : String) (loadOk : Bool)
    (tr : String → String) (chunk_size start_line : Nat) : String × List FileEvent :=
  if loadOk then
    let st := runPipeline tr markdown_content chunk_size start_line
    (pyJoin "\n\n" st.translated, st.events)
  else
    (markdown_content, [])

/-- The chunk decomposition produced by the loop (the `translated_paragraphs`
list under the identity translation; chunk boundaries do not depend on the
translation primitive). -/
def chunksOf (markdown_content : String) (chunk_size start_line : Nat) : List String :=
  (runPipeline id markdown_content chunk_size start_line).translated

/-- The write trace shape when starting from paragraph 1: first chunk plain,
every later chunk prefixed with the paragraph separator. -/
def chunkWrites1 : List String → List FileEvent
  | [] => []
  | t :: ts => FileEvent.append t :: ts.map (fun u => FileEvent.append ("\n\n" ++ u))

/-- The call performed by `main` at `main.py` line 351:
`translate_markdown_chunks(markdown_content, args.output_file, args.model,
args.start_line)` passes `args.start_line` as the fourth positional argument,
which is the `chunk_size` parameter, so `start_line` keeps its default 1. -/
def main_translate_call (markdown_content : String) (loadOk : Bool)
    (tr : String → String) (start_line_arg : Nat) : String × List FileEvent :=
  translate_markdown_chunks markdown_content loadOk tr start_line_arg 1

/-- Written from the amended C9 wording: the text after the last occurrence of
the delimiter phrase, stripped, each line individually stripped, keeping
lines only up to the first blank line. -/
def specGenericExtract (raw : String) : String :=
  pyJoin "\n"
    (((pySplit (pyStrip (lastPart (pySplit raw "Japanese translation:"))) "\n").map
        pyStrip).takeWhile (fun l => l != ""))

/-! ### Basic facts about the embedded string primitives -/

theorem str_ext : ∀ {a b : String}, a.data = b.data → a = b
  | ⟨_⟩, ⟨_⟩, h => congrArg String.mk h

theorem data_append (a b : String) : (a ++ b).data = a.data ++ b.data := rfl

theorem append_assoc_str (a b c : String) : a ++ b ++ c = a ++ (b ++ c) :=
  str_ext (by simp [data_append])

theorem append_empty_str (a : String) : a ++ "" = a :=
  str_ext (by simp [data_append])

theorem empty_append_str (a : String) : "" ++ a = a :=
  str_ext (by simp [data_append])

theorem length_append_str (a b : String) : (a ++ b).length = a.length + b.length := by
  show (a ++ b).data.length = a.data.length + b.data.length
  rw [data_append, List.length_append]

theorem str_ne_empty_of_len (a : String) (h : 0 < a.length) : a ≠ "" := by
  intro he
  rw [he] at h
  exact absurd h (by decide)

theorem joinSepL_cons2 (sep x y : Chars) (ys : List Chars) :
    joinSepL sep (x :: y :: ys) = x ++ sep ++ joinSepL sep (y :: ys) := rfl

theorem joinSepL_snoc (sep : Chars) (A : List Chars) (b : Chars) (h : A ≠ []) :
    joinSepL sep (A ++ [b]) = joinSepL sep A ++ sep ++ b := by
  induction A with
  | nil => exact absurd rfl h
  | cons x xs ih =>
    cases xs with
    | nil => simp [joinSepL]
    | cons y ys =>
      have h2 := ih (by simp)
      simp only [List.cons_append, joinSepL_cons2] at h2 ⊢
      rw [h2]
      simp [List.append_assoc]

theorem pyJoin_single (sep b : String) : pyJoin sep [b] = b := str_ext rfl

theorem pyJoin_cons2 (sep x y : String) (ys : List String) :
    pyJoin sep (x :: y :: ys) = x ++ sep ++ pyJoin sep (y :: ys) :=
  str_ext (by simp [pyJoin, joinSepL_cons2, data_append])

theorem pyJoin_snoc_ne (sep : String) (A : List String) (b : String) (h : A ≠ []) :
    pyJoin sep (A ++ [b]) = pyJoin sep A ++ sep ++ b := by
  apply str_ext
  have hA : A.map String.data ≠ [] := by
    intro hc
    exact h (List.map_eq_nil_iff.mp hc)
  simp only [pyJoin, data_append, List.map_append, List.map_cons, List.map_nil]
  exact joinSepL_snoc sep.data (A.map String.data) b.data hA

theorem pyJoin_eq_head_tail (x : String) (ps : List String) :
    pyJoin "\n\n" (x :: ps) = x ++ tailJoin ps := by
  induction ps generalizing x with
  | nil =>
    rw [pyJoin_single, tailJoin]
    exact (append_empty_str x).symm
  | cons y ys ih =>
    rw [pyJoin_cons2, ih y, tailJoin, append_assoc_str, append_assoc_str]

theorem dropPre_sound : ∀ (pat s rest : Chars), dropPre pat s = some rest → s = pat ++ rest := by
  intro pat
  induction pat with
  | nil =>
    intro s rest h
    simp only [dropPre, Option.some.injEq] at h
    simp [h]
  | cons p ps ih =>
    intro s rest h
    cases s with
    | nil => exact absurd h (by simp [dropPre])
    | cons c cs =>
      simp only [dropPre] at h
      split at h
      · next hpc =>
        have := ih cs rest h
        simp [this, hpc]
      · exact absurd h (by simp)

theorem splitFirstL_sound (sep : Chars) : ∀ (s pre post : Chars),
    splitFirstL sep s = some (pre, post) → s = pre ++ sep ++ post := by
  intro s
  induction s with
  | nil =>
    intro pre post h
    rw [splitFirstL] at h
    split at h
    · next rest hd =>
      cases h
      have h2 := dropPre_sound sep [] _ hd
      simp [← h2]
    · exact absurd h (by simp)
  | cons c cs ih =>
    intro pre post h
    rw [splitFirstL] at h
    split at h
    · next rest hd =>
      cases h
      simpa using dropPre_sound sep (c :: cs) _ hd
    · split at h
      · next pre0 post0 hs =>
        cases h
        simp [ih _ _ hs]
      · exact absurd h (by simp)

theorem splitOnFuelL_ne_nil (sep : Chars) (fuel : Nat) (s : Chars) :
    splitOnFuelL sep fuel s ≠ [] := by
  cases fuel with
  | zero => simp [splitOnFuelL]
  | succ n =>
    rw [splitOnFuelL]
    split <;> simp

theorem joinSepL_splitOnFuelL (sep : Chars) : ∀ (fuel : Nat) (s : Chars),
    joinSepL sep (splitOnFuelL sep fuel s) = s := by
  intro fuel
  induction fuel with
  | zero => intro s; rfl
  | succ n ih =>
    intro s
    rw [splitOnFuelL]
    split
    · rfl
    · next pre post hs =>
      have hsound := splitFirstL_sound sep s pre post hs
      have hne := splitOnFuelL_ne_nil sep n post
      cases hL : splitOnFuelL sep n post with
      | nil => exact absurd hL hne
      | cons a as =>
        have hjoin : joinSepL sep (a :: as) = post := by
          rw [← hL]
          exact ih post
        rw [joinSepL_cons2, hjoin, ← hsound]

theorem pySplit_ne_nil (s sep : String) : pySplit s sep ≠ [] := by
  intro h
  exact splitOnFuelL_ne_nil sep.data (s.data.length + 1) s.data (List.map_eq_nil_iff.mp h)

theorem pyJoin_pySplit (s sep : String) : pyJoin sep (pySplit s sep) = s := by
  apply str_ext
  show joinSepL sep.data ((pySplit s sep).map String.data) = s.data
  have hmaps : (pySplit s sep).map String.data
      = splitOnFuelL sep.data (s.data.length + 1) s.data := by
    rw [pySplit, List.map_map]
    exact List.map_id _
  rw [hmaps, joinSepL_splitOnFuelL]

theorem pyContains_split (s sub : String) (h : pyContains s sub = true) :
    1 < (pySplit s sub).length := by
  rw [pyContains] at h
  split at h
  · next pr hs =>
    obtain ⟨pre, post⟩ := pr
    rw [pySplit, List.length_map, splitOnFuelL, hs]
    have hne := splitOnFuelL_ne_nil sub.data s.data.length post
    simpa using List.length_pos.mpr hne
  · exact absurd h (by simp)

theorem takeCleanLines_eq (ls : List String) :
    takeCleanLines ls = (ls.map pyStrip).takeWhile (fun l => l != "") := by
  induction ls with
  | nil => rfl
  | cons l ls ih =>
    rw [takeCleanLines, List.map_cons, List.takeWhile_cons]
    by_cases h : pyStrip l = ""
    · simp [h]
    · simp [h, ih]

/-! ### Invariants of the chunking loop -/

theorem chunkWrites1_snoc (T : List String) (t : String) :
    chunkWrites1 (T ++ [t]) = chunkWrites1 T ++ [writeEvent 1 (T.length + 1) t] := by
  cases T with
  | nil => simp [chunkWrites1, writeEvent]
  | cons x xs =>
    have hcond : ¬ (1 = 1 ∧ (x :: xs).length + 1 = 1) := by
      rintro ⟨-, h⟩
      simp only [List.length_cons] at h
      omega
    rw [writeEvent, if_neg hcond]
    simp [chunkWrites1]

theorem stepPar_events_one (tr : String → String) (cs : Nat) (st : TState) (p : String)
    (hc : st.chunkCount = st.translated.length)
    (he : st.events = FileEvent.truncate :: chunkWrites1 st.translated) :
    (stepPar tr cs 1 st p).chunkCount = (stepPar tr cs 1 st p).translated.length ∧
      (stepPar tr cs 1 st p).events
        = FileEvent.truncate :: chunkWrites1 (stepPar tr cs 1 st p).translated := by
  rw [stepPar]
  have hskip : ¬ (st.paragraphCount + 1 < 1) := by omega
  rw [if_neg hskip]
  split
  · refine ⟨by simp [hc], ?_⟩
    simp only [he, hc, chunkWrites1_snoc]
    simp
  · split
    · exact ⟨hc, he⟩
    · exact ⟨hc, he⟩

theorem finishPar_events_one (tr : String → String) (st : TState)
    (hc : st.chunkCount = st.translated.length)
    (he : st.events = FileEvent.truncate :: chunkWrites1 st.translated) :
    (finishPar tr 1 st).chunkCount = (finishPar tr 1 st).translated.length ∧
      (finishPar tr 1 st).events
        = FileEvent.truncate :: chunkWrites1 (finishPar tr 1 st).translated := by
  rw [finishPar]
  split
  · refine ⟨by simp [hc], ?_⟩
    simp only [he, hc, chunkWrites1_snoc]
    simp
  · exact ⟨hc, he⟩

theorem foldl_events_one (tr : String → String) (cs : Nat) :
    ∀ (ps : List String) (st : TState),
      st.chunkCount = st.translated.length →
      st.events = FileEvent.truncate :: chunkWrites1 st.translated →
      (ps.foldl (stepPar tr cs 1) st).chunkCount
          = (ps.foldl (stepPar tr cs 1) st).translated.length ∧
        (ps.foldl (stepPar tr cs 1) st).events
          = FileEvent.truncate :: chunkWrites1 (ps.foldl (stepPar tr cs 1) st).translated := by
  intro ps
  induction ps with
  | nil => intro st hc he; exact ⟨hc, he⟩
  | cons p ps ih =>
    intro st hc he
    have h := stepPar_events_one tr cs st p hc he
    exact ih (stepPar tr cs 1 st p) h.1 h.2

theorem runPipeline_events_one (tr : String → String) (md : String) (cs : Nat) :
    (runPipeline tr md cs 1).events
      = FileEvent.truncate :: chunkWrites1 (runPipeline tr md cs 1).translated := by
  rw [runPipeline]
  have h0 : (initState 1).chunkCount = (initState 1).translated.length := rfl
  have h1 : (initState 1).events
      = FileEvent.truncate :: chunkWrites1 (initState 1).translated := by
    simp [initState, chunkWrites1]
  have h := foldl_events_one tr cs (pySplit md "\n\n") (initState 1) h0 h1
  exact (finishPar_events_one tr _ h.1 h.2).2

theorem stepPar_map (tr : String → String) (cs sl : Nat) (stI stT : TState) (p : String)
    (hc : stT.current = stI.current) (hp : stT.paragraphCount = stI.paragraphCount)
    (ht : stT.translated = stI.translated.map tr) :
    (stepPar tr cs sl stT p).current = (stepPar id cs sl stI p).current ∧
      (stepPar tr cs sl stT p).paragraphCount = (stepPar id cs sl stI p).paragraphCount ∧
      (stepPar tr cs sl stT p).translated
        = ((stepPar id cs sl stI p).translated).map tr := by
  rw [stepPar, stepPar, hc, hp, ht]
  by_cases h1 : stI.paragraphCount + 1 < sl
  · rw [if_pos h1, if_pos h1]
    exact ⟨rfl, rfl, rfl⟩
  · rw [if_neg h1, if_neg h1]
    by_cases h2 : stI.current.length + p.length > cs ∧ stI.current ≠ ""
    · rw [if_pos h2, if_pos h2]
      refine ⟨rfl, rfl, ?_⟩
      simp
    · rw [if_neg h2, if_neg h2]
      by_cases h3 : stI.current ≠ ""
      · rw [if_pos h3, if_pos h3]
        exact ⟨rfl, rfl, rfl⟩
      · rw [if_neg h3, if_neg h3]
        exact ⟨rfl, rfl, rfl⟩

theorem foldl_map (tr : String → String) (cs sl : Nat) :
    ∀ (ps : List String) (stI stT : TState),
      stT.current = stI.current → stT.paragraphCount = stI.paragraphCount →
      stT.translated = stI.translated.map tr →
      (ps.foldl (stepPar tr cs sl) stT).current
          = (ps.foldl (stepPar id cs sl) stI).current ∧
        (ps.foldl (stepPar tr cs sl) stT).paragraphCount
          = (ps.foldl (stepPar id cs sl) stI).paragraphCount ∧
        (ps.foldl (stepPar tr cs sl) stT).translated
          = ((ps.foldl (stepPar id cs sl) stI).translated).map tr := by
  intro ps
  induction ps with
  | nil => intro stI stT hc hp ht; exact ⟨hc, hp, ht⟩
  | cons p ps ih =>
    intro stI stT hc hp ht
    have h := stepPar_map tr cs sl stI stT p hc hp ht
    exact ih (stepPar id cs sl stI p) (stepPar tr cs sl stT p) h.1 h.2.1 h.2.2

theorem finishPar_map (tr : String → String) (sl : Nat) (stI stT : TState)
    (hc : stT.current = stI.current)
    (ht : stT.translated = stI.translated.map tr) :
    (finishPar tr sl stT).translated = ((finishPar id sl stI).translated).map tr := by
  rw [finishPar, finishPar, hc, ht]
  by_cases h : stI.current ≠ ""
  · rw [if_pos h, if_pos h]
    simp
  · rw [if_neg h, if_neg h]
    exact ht

theorem runPipeline_translated_map (tr : String → String) (md : String) (cs sl : Nat) :
    (runPipeline tr md cs sl).translated = (chunksOf md cs sl).map tr := by
  rw [runPipeline, chunksOf, runPipeline]
  have h := foldl_map tr cs sl (pySplit md "\n\n") (initState sl) (initState sl) rfl rfl rfl
  exact finishPar_map tr sl _ _ h.1 h.2.2

theorem stepPar_join (cs : Nat) (st : TState) (p : String)
    (hcur : st.current ≠ "") (hp : p ≠ "") :
    (stepPar id cs 1 st p).current ≠ "" ∧
      pyJoin "\n\n" ((stepPar id cs 1 st p).translated ++ [(stepPar id cs 1 st p).current])
        = pyJoin "\n\n" (st.translated ++ [st.current]) ++ "\n\n" ++ p := by
  rw [stepPar]
  have hskip : ¬ (st.paragraphCount + 1 < 1) := by omega
  rw [if_neg hskip]
  by_cases h2 : st.current.length + p.length > cs ∧ st.current ≠ ""
  · rw [if_pos h2]
    refine ⟨hp, ?_⟩
    show pyJoin "\n\n" ((st.translated ++ [id st.current]) ++ [p]) = _
    rw [pyJoin_snoc_ne "\n\n" (st.translated ++ [id st.current]) p (by simp)]
    rfl
  · rw [if_neg h2, if_pos hcur]
    constructor
    · show st.current ++ "\n\n" ++ p ≠ ""
      apply str_ne_empty_of_len
      rw [length_append_str, length_append_str]
      have hs2 : ("\n\n" : String).length = 2 := rfl
      omega
    · show pyJoin "\n\n" (st.translated ++ [st.current ++ "\n\n" ++ p]) = _
      cases hT : st.translated with
      | nil =>
        rw [List.nil_append, List.nil_append, pyJoin_single, pyJoin_single]
      | cons a as =>
        rw [pyJoin_snoc_ne _ _ _ (by simp), pyJoin_snoc_ne _ _ _ (by simp)]
        simp [append_assoc_str]

theorem foldl_join (cs : Nat) :
    ∀ (ps : List String) (st : TState), st.current ≠ "" → (∀ p ∈ ps, p ≠ "") →
      (ps.foldl (stepPar id cs 1) st).current ≠ "" ∧
        pyJoin "\n\n" ((ps.foldl (stepPar id cs 1) st).translated
            ++ [(ps.foldl (stepPar id cs 1) st).current])
          = pyJoin "\n\n" (st.translated ++ [st.current]) ++ tailJoin ps := by
  intro ps
  induction ps with
  | nil =>
    intro st h _
    exact ⟨h, by rw [List.foldl_nil, tailJoin, append_empty_str]⟩
  | cons p ps ih =>
    intro st hcur hps
    have hp : p ≠ "" := hps p (by simp)
    have hstep := stepPar_join cs st p hcur hp
    have hrest := ih (stepPar id cs 1 st p) hstep.1 (fun q hq => hps q (by simp [hq]))
    refine ⟨hrest.1, ?_⟩
    rw [List.foldl_cons]
    rw [hrest.2, hstep.2, tailJoin]
    simp [append_assoc_str]

theorem runPipeline_join (md : String) (cs : Nat)
    (hne : ∀ p ∈ pySplit md "\n\n", p ≠ "") :
    pyJoin "\n\n" (chunksOf md cs 1) = md := by
  rw [chunksOf, runPipeline]
  cases hP : pySplit md "\n\n" with
  | nil => exact absurd hP (pySplit_ne_nil md "\n\n")
  | cons p0 ps =>
    have hp0 : p0 ≠ "" := by
      apply hne
      rw [hP]
      simp
    have hcur1 : (stepPar id cs 1 (initState 1) p0).current = p0 := by
      simp [stepPar, initState]
    have htr1 : (stepPar id cs 1 (initState 1) p0).translated = [] := by
      simp [stepPar, initState]
    have hne1 : (stepPar id cs 1 (initState 1) p0).current ≠ "" := by
      rw [hcur1]
      exact hp0
    have h := foldl_join cs ps (stepPar id cs 1 (initState 1) p0) hne1
      (fun q hq => hne q (by rw [hP]; simp [hq]))
    rw [List.foldl_cons, finishPar, if_pos h.1]
    show pyJoin "\n\n" ((ps.foldl (stepPar id cs 1) (stepPar id cs 1 (initState 1) p0)).translated
        ++ [id ((ps.foldl (stepPar id cs 1) (stepPar id cs 1 (initState 1) p0)).current)]) = md
    rw [id]
    rw [h.2, htr1, hcur1, List.nil_append, pyJoin_single, ← pyJoin_eq_head_tail, ← hP,
      pyJoin_pySplit]

theorem stepPar_size (cs sl : Nat) (paras : List String) (st : TState) (p : String)
    (hp : p ∈ paras)
    (hT : ∀ c ∈ st.translated, c.length ≤ cs + 2 ∨ c ∈ paras)
    (hC : st.current = "" ∨ st.current ∈ paras ∨ st.current.length ≤ cs + 2) :
    (∀ c ∈ (stepPar id cs sl st p).translated, c.length ≤ cs + 2 ∨ c ∈ paras) ∧
      ((stepPar id cs sl st p).current = "" ∨ (stepPar id cs sl st p).current ∈ paras
        ∨ (stepPar id cs sl st p).current.length ≤ cs + 2) := by
  rw [stepPar]
  by_cases h1 : st.paragraphCount + 1 < sl
  · rw [if_pos h1]
    exact ⟨hT, hC⟩
  · rw [if_neg h1]
    by_cases h2 : st.current.length + p.length > cs ∧ st.current ≠ ""
    · rw [if_pos h2]
      constructor
      · intro c hc
        simp only [List.mem_append, List.mem_singleton, id] at hc
        rcases hc with hc | hc
        · exact hT c hc
        · subst hc
          rcases hC with hC | hC | hC
          · exact absurd hC h2.2
          · exact Or.inr hC
          · exact Or.inl hC
      · exact Or.inr (Or.inl hp)
    · rw [if_neg h2]
      by_cases h3 : st.current ≠ ""
      · rw [if_pos h3]
        refine ⟨hT, Or.inr (Or.inr ?_)⟩
        show (st.current ++ "\n\n" ++ p).length ≤ cs + 2
        rw [length_append_str, length_append_str]
        have hs2 : ("\n\n" : String).length = 2 := rfl
        have hle : st.current.length + p.length ≤ cs := by
          by_contra hgt
          exact h2 ⟨by omega, h3⟩
        omega
      · rw [if_neg h3]
        exact ⟨hT, Or.inr (Or.inl hp)⟩

theorem foldl_size (cs sl : Nat) (paras : List String) :
    ∀ (ps : List String) (st : TState), (∀ p ∈ ps, p ∈ paras) →
      (∀ c ∈ st.translated, c.length ≤ cs + 2 ∨ c ∈ paras) →
      (st.current = "" ∨ st.current ∈ paras ∨ st.current.length ≤ cs + 2) →
      (∀ c ∈ (ps.foldl (stepPar id cs sl) st).translated, c.length ≤ cs + 2 ∨ c ∈ paras) ∧
        ((ps.foldl (stepPar id cs sl) st).current = ""
          ∨ (ps.foldl (stepPar id cs sl) st).current ∈ paras
          ∨ (ps.foldl (stepPar id cs sl) st).current.length ≤ cs + 2) := by
  intro ps
  induction ps with
  | nil => intro st _ hT hC; exact ⟨hT, hC⟩
  | cons p ps ih =>
    intro st hps hT hC
    have h := stepPar_size cs sl paras st p (hps p (by simp)) hT hC
    exact ih (stepPar id cs sl st p) (fun q hq => hps q (by simp [hq])) h.1 h.2

theorem chunksOf_size (md : String) (cs sl : Nat) :
    ∀ c ∈ chunksOf md cs sl, c.length ≤ cs + 2 ∨ c ∈ pySplit md "\n\n" := by
  intro c hc
  rw [chunksOf, runPipeline] at hc
  have h := foldl_size cs sl (pySplit md "\n\n") (pySplit md "\n\n") (initState sl)
    (fun p hp => hp) (by simp [initState]) (by simp [initState])
  rw [finishPar] at hc
  by_cases hfin : ((pySplit md "\n\n").foldl (stepPar id cs sl) (initState sl)).current ≠ ""
  · rw [if_pos hfin] at hc
    simp only [List.mem_append, List.mem_singleton, id] at hc
    rcases hc with hc | hc
    · exact h.1 c hc
    · subst hc
      rcases h.2 with h2 | h2 | h2
      · exact absurd h2 hfin
      · exact Or.inr h2
      · exact Or.inl h2
  · rw [if_neg hfin] at hc
    exact h.1 c hc

theorem foldl_pref (ts : List String) : ∀ acc : String,
    (ts.map (fun u => FileEvent.append ("\n\n" ++ u))).foldl applyEvent acc
      = acc ++ tailJoin ts := by
  induction ts with
  | nil => intro acc; exact (append_empty_str acc).symm
  | cons u us ih =>
    intro acc
    simp only [List.map_cons, List.foldl_cons, applyEvent]
    rw [ih, tailJoin, append_assoc_str]

theorem fileContent_chunkWrites1 (ts : List String) :
    fileContent "" (FileEvent.truncate :: chunkWrites1 ts) = pyJoin "\n\n" ts := by
  cases ts with
  | nil => rfl
  | cons t ts =>
    simp only [fileContent, chunkWrites1, List.foldl_cons, applyEvent]
    rw [empty_append_str, foldl_pref, ← pyJoin_eq_head_tail]

/-! ### The claims -/

/-- C1 (code bug): `main` is supposed to pass `--start-line` as the resume
paragraph, but at `main.py` line 351 it passes it positionally into
`chunk_size`, so with `--start-line 2` on the two-paragraph document
`"a\n\nb"` the first paragraph is still translated (it appears inside the one
translated chunk) and the output file is truncated; whereas the intended call
`translate_markdown_chunks(md, ..., chunk_size=1000, start_line=2)` skips
paragraph 1 and performs appends only. -/
theorem C1_start_line_wiring_eval :
    main_translate_call "a\n\nb" true (fun c => "T(" ++ c ++ ")") 2
        = ("T(a\n\nb)", [FileEvent.truncate, FileEvent.append "T(a\n\nb)"]) ∧
      translate_markdown_chunks "a\n\nb" true (fun c => "T(" ++ c ++ ")") 1000 2
        = ("T(b)", [FileEvent.append "\n\nT(b)"]) := by
  constructor
  · decide
  · decide

/-- C2 (code bug): with CLI defaults, `args.start_line = 1` is passed into
`chunk_size` at `main.py` line 351, so the accumulation target is 1 character,
not 1000: the two short paragraphs of `"aa\n\nbb"` are translated as two
separate chunks (two appends), while a chunk size of 1000 would put them in a
single chunk (one append). -/
theorem C2_default_chunk_size_eval :
    main_translate_call "aa\n\nbb" true id 1
        = ("aa\n\nbb",
            [FileEvent.truncate, FileEvent.append "aa", FileEvent.append "\n\nbb"]) ∧
      translate_markdown_chunks "aa\n\nbb" true id 1000 1
        = ("aa\n\nbb", [FileEvent.truncate, FileEvent.append "aa\n\nbb"]) := by
  constructor
  · decide
  · decide

/-- C3 (counterexample): with threshold 11, the paragraphs `"aaaaa"` and
`"bbbbb"` are packed into the single chunk `"aaaaa\n\nbbbbb"` of length 12,
which exceeds the threshold yet consists of two paragraphs, neither oversized:
the close condition at `main.py` line 217 does not count the two separator
characters. -/
theorem C3_counterexample :
    chunksOf "aaaaa\n\nbbbbb" 11 1 = ["aaaaa\n\nbbbbb"] ∧
      11 < ("aaaaa\n\nbbbbb" : String).length ∧
      pySplit "aaaaa\n\nbbbbb" "\n\n" = ["aaaaa", "bbbbb"] := by
  refine ⟨by decide, by decide, by decide⟩

/-- C3 (amended): a chunk closes when the accumulated chunk length plus the
next paragraph's length (not counting the two-character separator the join
inserts) would exceed the threshold, unless the chunk is empty; consequently
every chunk whose total character length exceeds the threshold by more than 2
is exactly one oversized source paragraph. -/
theorem C3_oversized_chunk_is_single_paragraph (md : String) (cs sl : Nat) (c : String)
    (hc : c ∈ chunksOf md cs sl) (hlen : cs + 2 < c.length) :
    c ∈ pySplit md "\n\n" ∧ cs < c.length := by
  rcases chunksOf_size md cs sl c hc with h | h
  · omega
  · exact ⟨h, by omega⟩

/-- Witness for C3: the oversized paragraph `"aaaa"` with threshold 1 fills
its own chunk. -/
theorem C3_oversized_chunk_is_single_paragraph_witness :
    ("aaaa" ∈ chunksOf "aaaa" 1 1 ∧ 1 + 2 < ("aaaa" : String).length) ∧
      ("aaaa" ∈ pySplit "aaaa" "\n\n" ∧ 1 < ("aaaa" : String).length) :=
  ⟨⟨by decide, by decide⟩,
    C3_oversized_chunk_is_single_paragraph "aaaa" 1 1 "aaaa" (by decide) (by decide)⟩

/-- C4 (counterexample): on `"\n\na"` (whose paragraph split is `["", "a"]`)
with chunk size 1 and identity translation, the function returns `"a"`, not
the input: the leading empty paragraph is dropped because assigning an empty
paragraph to an empty accumulator leaves the accumulator indistinguishable
from empty. -/
theorem C4_counterexample :
    (translate_markdown_chunks "\n\na" true id 1 1).1 = "a" ∧
      ("a" : String) ≠ "\n\na" := by
  refine ⟨by decide, by decide⟩

/-- C4 (amended): provided every paragraph of the split is non-empty, joining
all chunks' original (untranslated) content with the paragraph separator
reproduces the original Markdown for any chunk size, and running
`translate_markdown_chunks` with the identity translation primitive returns
the input unchanged. -/
theorem C4_roundtrip_nonempty_paragraphs (md : String) (cs : Nat) (h1 : 1 ≤ cs)
    (hne : ∀ p ∈ pySplit md "\n\n", p ≠ "") :
    pyJoin "\n\n" (chunksOf md cs 1) = md ∧
      (translate_markdown_chunks md true id cs 1).1 = md := by
  have hjoin := runPipeline_join md cs hne
  refine ⟨hjoin, ?_⟩
  simpa [translate_markdown_chunks, chunksOf] using hjoin

/-- Witness for C4: a three-paragraph document with chunk size 3 round-trips. -/
theorem C4_roundtrip_nonempty_paragraphs_witness :
    (1 ≤ 3 ∧ ∀ p ∈ pySplit "Hello\n\nworld\n\nagain" "\n\n", p ≠ "") ∧
      (pyJoin "\n\n" (chunksOf "Hello\n\nworld\n\nagain" 3 1) = "Hello\n\nworld\n\nagain" ∧
        (translate_markdown_chunks "Hello\n\nworld\n\nagain" true id 3 1).1
          = "Hello\n\nworld\n\nagain") :=
  ⟨⟨by decide, by decide⟩,
    C4_roundtrip_nonempty_paragraphs "Hello\n\nworld\n\nagain" 3 (by decide) (by decide)⟩

/-- C5: if loading the model raises, `translate_markdown_chunks` returns the
original Markdown unchanged and performs no write to the output file (the
truncation and all appends happen only after a successful load). -/
theorem C5_load_failure_no_effects (markdown_content : String) (tr : String → String)
    (chunk_size start_line : Nat) :
    translate_markdown_chunks markdown_content false tr chunk_size start_line
      = (markdown_content, []) := rfl

/-- C6: the translation primitive returns its input unchanged on any caught
exception (`gen = none`), and the chunked run built on it produces, for any
per-chunk generation outcome, the ordered join of the per-chunk results as its
return value and the corresponding ordered write trace — so failing chunks are
substituted with their original text and the output file stays complete and
ordered. -/
theorem C6_exception_fallback (md model_name : String) (cs : Nat)
    (gen : String → Option String) :
    (∀ text : String, translate_with_mlx_lm text model_name none = text) ∧
      (translate_markdown_chunks md true
          (fun c => translate_with_mlx_lm c model_name (gen c)) cs 1).1
        = pyJoin "\n\n"
            ((chunksOf md cs 1).map (fun c => translate_with_mlx_lm c model_name (gen c))) ∧
      (translate_markdown_chunks md true
          (fun c => translate_with_mlx_lm c model_name (gen c)) cs 1).2
        = FileEvent.truncate :: chunkWrites1
            ((chunksOf md cs 1).map (fun c => translate_with_mlx_lm c model_name (gen c))) := by
  refine ⟨fun text => rfl, ?_, ?_⟩
  · simp only [translate_markdown_chunks, if_true]
    rw [runPipeline_translated_map]
  · simp only [translate_markdown_chunks, if_true]
    rw [runPipeline_events_one, runPipeline_translated_map]

/-- C7: starting from paragraph 1, the write trace is a truncation followed by
the first chunk written plainly and every further chunk prefixed with the
paragraph separator, and replaying the trace yields exactly the function's
return value (the join of all chunk translations). -/
theorem C7_streaming_matches_return (md : String) (tr : String → String) (cs : Nat) :
    (translate_markdown_chunks md true tr cs 1).2
        = FileEvent.truncate :: chunkWrites1 ((chunksOf md cs 1).map tr) ∧
      fileContent "" ((translate_markdown_chunks md true tr cs 1).2)
        = (translate_markdown_chunks md true tr cs 1).1 := by
  have hev : (translate_markdown_chunks md true tr cs 1).2
      = FileEvent.truncate :: chunkWrites1 ((chunksOf md cs 1).map tr) := by
    simp only [translate_markdown_chunks, if_true]
    rw [runPipeline_events_one, runPipeline_translated_map]
  refine ⟨hev, ?_⟩
  rw [hev, fileContent_chunkWrites1]
  simp only [translate_markdown_chunks, if_true]
  rw [runPipeline_translated_map]

/-- C8: for the built-in plamo translation family, the extraction fallback at
`main.py` lines 132-133 guarantees that a non-empty input never yields an
empty result, whatever the raw generation output (including a raised
exception). -/
theorem C8_plamo_never_empty (text model_name : String) (gen : Option String)
    (hm : isPlamoTranslate model_name = true) (ht : text ≠ "") :
    translate_with_mlx_lm text model_name gen ≠ "" := by
  cases gen with
  | none => exact ht
  | some out =>
    simp only [translate_with_mlx_lm, hm, if_true]
    by_cases h : plamoCut (plamoExtract text out) = ""
    · simpa [h] using ht
    · simpa [h] using h

/-- Witness for C8: the default model name with an empty raw generation
output still returns a non-empty result for input `"hi"`. -/
theorem C8_plamo_never_empty_witness :
    (isPlamoTranslate "mlx-community/plamo-2-translate" = true ∧ ("hi" : String) ≠ "") ∧
      translate_with_mlx_lm "hi" "mlx-community/plamo-2-translate" (some "") ≠ "" :=
  ⟨⟨by decide, by decide⟩,
    C8_plamo_never_empty "hi" "mlx-community/plamo-2-translate" (some "")
      (by decide) (by decide)⟩

/-- C9 (counterexample): for a generic model, on the raw output
`"Japanese translation:A\n\nB"` the code returns `"A"`, not everything after
the delimiter: the extraction loop at `main.py` lines 143-148 breaks at the
first blank line, discarding the content that follows it. -/
theorem C9_counterexample :
    translate_with_mlx_lm "x" "gpt" (some "Japanese translation:A\n\nB") = "A" ∧
      ("A" : String) ≠ "A\n\nB" := by
  refine ⟨by decide, by decide⟩

/-- C9 (amended): for generic model identifiers, whenever the raw output
contains the delimiter phrase, the result is the text after the last
occurrence of the delimiter, stripped, split into lines with each line
stripped, keeping lines only up to the first blank line (content after the
first blank line is discarded), joined with single newlines. -/
theorem C9_generic_extraction (text model_name out : String)
    (hm : isPlamoTranslate model_name = false)
    (hd : pyContains out "Japanese translation:" = true) :
    translate_with_mlx_lm text model_name (some out) = specGenericExtract out := by
  simp only [translate_with_mlx_lm, hm, hd, if_true, Bool.false_eq_true, if_false]
  rw [genericExtractLoop, if_pos (pyContains_split out _ hd)]
  rw [specGenericExtract, takeCleanLines_eq]

/-- Witness for C9: a generic model name and a delimiter-bearing raw output. -/
theorem C9_generic_extraction_witness :
    (isPlamoTranslate "gpt" = false ∧
        pyContains "Japanese translation: A\n\nB" "Japanese translation:" = true) ∧
      translate_with_mlx_lm "x" "gpt" (some "Japanese translation: A\n\nB")
        = specGenericExtract "Japanese translation: A\n\nB" :=
  ⟨⟨by decide, by decide⟩,
    C9_generic_extraction "x" "gpt" "Japanese translation: A\n\nB" (by decide) (by decide)⟩

/-- C10: for a generic model there is a non-empty input and a raw output (the
delimiter followed only by whitespace) for which the function returns the
empty string: the never-empty guarantee belongs to the plamo family only. -/
theorem C10_generic_empty_result :
    ("hello" : String) ≠ "" ∧
      isPlamoTranslate "some-model" = false ∧
      translate_with_mlx_lm "hello" "some-model" (some "Japanese translation:\n \n") = "" := by
  refine ⟨by decide, by decide, by decide⟩
